import Mathlib

/-!
# Playlist reconciliation engine: shallow embedding and verification

This file embeds the playlist reconciliation logic of
`src/services/plex_service.py` (the methods `update_recent_raves`,
`sync_jam_jar` and `sync_staff_picks`) as executable Lean definitions and
proves / refutes the specification claims about them.

Modelling conventions:
* A Plex track is a record of the fields the engine reads: `ratingKey`,
  `title`, `grandparentTitle`, `originalTitle`, `lastRatedAt`, `addedAt`.
  Python `datetime` values are modelled as `Nat` (order-isomorphic on the
  values that occur); an absent (`None`) value is `Option.none`.
  `datetime.min` is the minimum of the type, modelled as `0`.
* A replica ("user") is its name, its Plex-Home flag, the result list of the
  5-star rating search in its scope, the contents of the playlist with the
  relevant title (`none` = no such playlist), and two failure flags.
  `readFail` models `switchUser`/search/playlist-read raising in the
  collection phase; `writeFail` models the write-phase `try` body raising
  before mutating the playlist.  The Python `except` blocks that catch these
  exceptions are modelled by the flags being consulted and the loop
  continuing, so every top-level operation is a total function.
* `playlist.addItems` appends at the end of the ordered playlist;
  `playlist.removeItems(items[k:])` removes exactly those tail entries, i.e.
  leaves `take k`; clearing then adding replaces the contents.
* Python's `list.sort(key=..., reverse=True)` is a stable descending sort;
  stable sorting is extensionally unique, so it is embedded as a stable
  insertion sort `sortDescBy`.
* Python dicts preserve insertion order, so `track_info` is an association
  list to which new keys are appended and in which existing keys are updated
  in place; `dict.values()` is `map Prod.snd`.
-/

/-- The fields of a Plex track object that the reconciliation engine reads.
Absent Python attributes / `None` are modelled by `""` for the string
fields and `none` for the timestamp fields. -/
structure Track where
  ratingKey : Nat
  title : String
  grandparentTitle : String
  originalTitle : String
  lastRatedAt : Option Nat
  addedAt : Option Nat
deriving DecidableEq, Repr

/-- `track.grandparentTitle or track.originalTitle or 'Unknown'` (Python
`or` on strings: the empty string is falsy). -/
def displayArtist (t : Track) : String :=
  if t.grandparentTitle ≠ "" then t.grandparentTitle
  else if t.originalTitle ≠ "" then t.originalTitle
  else "Unknown"

/-- One replica: a user scope over the shared catalog.  `ratedTracks` is
what `lib.search(libtype='track', filters= userRating above 9.9)` returns in
that scope; `playlist` is the contents of the playlist with the relevant
title, `none` when the user has no playlist of that title. -/
structure Replica where
  name : String
  home : Bool
  ratedTracks : List Track
  playlist : Option (List Track)
  readFail : Bool
  writeFail : Bool
deriving DecidableEq, Repr

/-- Stable insert for a descending sort: `a` goes before the first element
whose key is not larger than `key a`. -/
def insertDescBy {α : Type} (key : α → Nat) (a : α) : List α → List α
  | [] => [a]
  | b :: bs => if key b ≤ key a then a :: b :: bs else b :: insertDescBy key a bs

/-- Stable descending sort by a `Nat` key.  Extensionally equal to Python's
`list.sort(key=..., reverse=True)` (Timsort is stable, and all stable sorts
under the same preorder agree). -/
def sortDescBy {α : Type} (key : α → Nat) (l : List α) : List α :=
  l.foldr (insertDescBy key) []

/-! ## `update_recent_raves` (Incremental-Capped policy), lines 509-617 -/

/-- Collection phase of `update_recent_raves` (lines 521-540): for each
contributor, unless its scope raises, keep the 5-star search results that
carry a `lastRatedAt` timestamp, remembering which user contributed each
track.  The pair list in collection order also determines the
`track_users` dict (later assignments overwrite earlier ones). -/
def collectRaves (cs : List Replica) : List (Track × String) :=
  cs.foldl
    (fun acc c =>
      if c.readFail then acc
      else acc ++ (c.ratedTracks.filter (fun t => t.lastRatedAt.isSome)).map
        (fun t => (t, c.name)))
    []

/-- The `track_users` dict: `track_users[track.ratingKey] = username` is
executed once per collected pair in collection order, so the surviving
binding is the last one. -/
def trackUser (collected : List (Track × String)) (k : Nat) : Option String :=
  ((collected.filter (fun p => p.1.ratingKey = k)).map (fun p => p.2)).getLast?

/-- Sort key used by `all_rated_tracks.sort(key=lambda t: t.lastRatedAt,
reverse=True)`; every sorted track has `isSome lastRatedAt` by the collection
filter, so the default is irrelevant there. -/
def ratedKey (t : Track) : Nat := t.lastRatedAt.getD 0

/-- `all_rated_tracks` after the in-place descending sort (line 547). -/
def allRatedSorted (cs : List Replica) : List Track :=
  sortDescBy ratedKey ((collectRaves cs).map Prod.fst)

/-- The dedup-with-cap loop of lines 549-558: walk the sorted list, skip
tracks whose key was seen, append unseen ones, and break as soon as the
accumulated length (`seen.length + 1` after an append, since `seen` records
exactly the appended keys) reaches `max_songs`. -/
def dedupeCapAux (cap : Nat) (seen : List Nat) : List Track → List Track
  | [] => []
  | t :: ts =>
    if t.ratingKey ∈ seen then dedupeCapAux cap seen ts
    else if cap ≤ seen.length + 1 then [t]
    else t :: dedupeCapAux cap (t.ratingKey :: seen) ts

/-- `unique_tracks`: the merged, deduplicated, capped sequence. -/
def uniqueTracksOf (cap : Nat) (cs : List Replica) : List Track :=
  dedupeCapAux cap [] (allRatedSorted cs)

/-- One entry of the `tracks` list in the returned dict (lines 565-572).
`ratedAt` models the `rated_at` display string: the kept track object's
`lastRatedAt`, or the empty string (`none`) when absent. -/
structure RaveEntry where
  title : String
  artist : String
  user : String
  ratedAt : Option Nat
deriving DecidableEq, Repr

/-- Builds one `track_list` entry from a kept track. -/
def raveEntry (collected : List (Track × String)) (t : Track) : RaveEntry :=
  { title := t.title
    artist := displayArtist t
    user := (trackUser collected t.ratingKey).getD "Unknown"
    ratedAt := t.lastRatedAt }

/-- The dict returned by `update_recent_raves`. -/
structure RaveResult where
  added : Nat
  total : Nat
  tracks : List RaveEntry
deriving DecidableEq, Repr

/-- The body of the per-contributor write loop (lines 578-614), returning
the contributor's new state and the number of tracks added for it.  A
raising scope (`writeFail`) is caught by the `except` and contributes
nothing.  If the playlist exists: diff `unique` against the existing keys,
append the difference at the end, and if the result exceeds the cap remove
the entries past position `cap` (`current_items[max_songs:]`).  If it does
not exist: create it with all of `unique`. -/
def updateOneRave (cap : Nat) (unique : List Track) (c : Replica) : Replica × Nat :=
  if c.writeFail then (c, 0)
  else
    match c.playlist with
    | some items =>
      let existingKeys := items.map (fun t => t.ratingKey)
      let newTracks := unique.filter (fun t => ¬ t.ratingKey ∈ existingKeys)
      if newTracks.isEmpty then (c, 0)
      else
        let afterAdd := items ++ newTracks
        let final := if cap < afterAdd.length then afterAdd.take cap else afterAdd
        ({ c with playlist := some final }, newTracks.length)
    | none => ({ c with playlist := some unique }, unique.length)

/-- The sequential per-contributor write loop, threading `total_added`. -/
def raveWriteLoop (cap : Nat) (unique : List Track) : List Replica → List Replica × Nat
  | [] => ([], 0)
  | c :: cs =>
    let p := updateOneRave cap unique c
    let r := raveWriteLoop cap unique cs
    (p.1 :: r.1, p.2 + r.2)

/-- `update_recent_raves(contributors, max_songs, playlist_name)`:
collect, early-return on an empty collection, sort + dedup + cap, build the
response track list, then run the write loop over the same contributor
list.  Returns the result dict and the contributors' final remote state. -/
def updateRecentRaves (cap : Nat) (cs : List Replica) : RaveResult × List Replica :=
  let collected := collectRaves cs
  if collected.isEmpty then ({ added := 0, total := 0, tracks := [] }, cs)
  else
    let unique := uniqueTracksOf cap cs
    if unique.isEmpty then ({ added := 0, total := 0, tracks := [] }, cs)
    else
      let entries := unique.map (raveEntry collected)
      let w := raveWriteLoop cap unique cs
      ({ added := w.2, total := unique.length, tracks := entries }, w.1)

/-! ## Membership-based collection (`sync_jam_jar` lines 633-665 and the
textually identical fold of `sync_staff_picks` lines 751-781) -/

/-- One value of the `track_info` dict: the first-seen track object plus the
tie-broken `added_at` / `added_by` and the display fields captured at
insertion. -/
structure MergeRec where
  track : Track
  addedAt : Option Nat
  addedBy : String
  title : String
  artist : String
deriving DecidableEq, Repr

/-- In-place update of the record at key `k`: only `added_at` and
`added_by` are overwritten, position and remaining fields are kept. -/
def updateRec (info : List (Nat × MergeRec)) (k : Nat) (t : Nat) (user : String) :
    List (Nat × MergeRec) :=
  info.map (fun p => if p.1 = k then (p.1, { p.2 with addedAt := some t, addedBy := user }) else p)

/-- The per-item body of the collection fold: insert an unseen key at the
end of the dict, otherwise update it only when the incoming item carries an
`addedAt` that is present and earlier than the stored one (or the stored
one is absent). -/
def foldPlaylistItem (user : String) (info : List (Nat × MergeRec)) (item : Track) :
    List (Nat × MergeRec) :=
  match info.lookup item.ratingKey with
  | none =>
    info ++ [(item.ratingKey,
      { track := item
        addedAt := item.addedAt
        addedBy := user
        title := item.title
        artist := displayArtist item })]
  | some ex =>
    match item.addedAt with
    | none => info
    | some t =>
      match ex.addedAt with
      | none => updateRec info item.ratingKey t user
      | some te => if t < te then updateRec info item.ratingKey t user else info

/-- One member's contribution step of the collection fold: an unreachable
scope or an absent playlist contributes nothing, otherwise the playlist's
items are folded in order. -/
def memberFold (info : List (Nat × MergeRec)) (m : Replica) : List (Nat × MergeRec) :=
  if m.readFail then info
  else
    match m.playlist with
    | none => info
    | some items => items.foldl (foldPlaylistItem m.name) info

/-- The `track_info` dict after folding all members' playlists in order
(lines 633-665). -/
def collectMembership (ms : List Replica) : List (Nat × MergeRec) :=
  ms.foldl memberFold []

/-- Sort key of `sorted(track_info.values(), key=lambda x: x['added_at'] if
x['added_at'] else datetime.min, reverse=True)`: an absent timestamp is
replaced by the minimum of the time type. -/
def memberKey (r : MergeRec) : Nat := r.addedAt.getD 0

/-- `sorted_tracks` of `sync_jam_jar` / `sync_staff_picks`. -/
def mergedRecords (info : List (Nat × MergeRec)) : List MergeRec :=
  sortDescBy memberKey (info.map Prod.snd)

/-- One entry of the `tracks` list returned by the membership policies. -/
structure JamEntry where
  title : String
  artist : String
  user : String
  addedAt : Option Nat
deriving DecidableEq, Repr

/-- Builds one response entry from a merge record. -/
def jamEntryOf (r : MergeRec) : JamEntry :=
  { title := r.title, artist := r.artist, user := r.addedBy, addedAt := r.addedAt }

/-- The dict returned by `sync_jam_jar`. -/
structure JamResult where
  total : Nat
  tracks : List JamEntry
deriving DecidableEq, Repr

/-- Per-member write of the full-replace phase (lines 711-736): on a
reachable scope, an existing playlist is cleared (`removeItems` of all
current entries) and refilled with the merged list, an absent one is
created with the merged list; either way the contents become exactly the
merged list. -/
def writeReplace (tracks : List Track) (m : Replica) : Replica :=
  if m.writeFail then m
  else
    match m.playlist with
    | some _cur => { m with playlist := some tracks }
    | none => { m with playlist := some tracks }

/-- The merged ordered track list `tracks_to_sync` of `sync_jam_jar`. -/
def jamMergedTracks (ms : List Replica) : List Track :=
  (mergedRecords (collectMembership ms)).map MergeRec.track

/-- `sync_jam_jar(members, playlist_name)`: collect from all members,
early-return on an empty merge (the empty branch only reads, so the remote
state is unchanged), otherwise sort and push the merged list to every
member sequentially. -/
def syncJamJar (ms : List Replica) : JamResult × List Replica :=
  let info := collectMembership ms
  if info.isEmpty then ({ total := 0, tracks := [] }, ms)
  else
    let sorted := mergedRecords info
    let tracksToSync := sorted.map MergeRec.track
    ({ total := tracksToSync.length, tracks := sorted.map jamEntryOf },
      ms.map (writeReplace tracksToSync))

/-! ## `sync_staff_picks` (Broadcast policy), lines 739-862 -/

/-- Remote state for the broadcast policy: the admin scope's playlist and
write-failure flag, plus all known user replicas (the write loop targets
those with `home = true`, mirroring `account.users()` filtered by the
`home` attribute; the admin scope is separate from that list). -/
structure StaffState where
  adminPlaylist : Option (List Track)
  adminWriteFail : Bool
  users : List Replica
deriving DecidableEq, Repr

/-- `plex.switchUser(username)`: resolves a user by name; an unknown name
raises (modelled as `none`, which callers catch and skip). -/
def switchUser (users : List Replica) (nm : String) : Option Replica :=
  users.find? (fun u => u.name = nm)

/-- One curator's contribution step: an unknown curator name makes
`switchUser` raise (caught, skipped), otherwise as in `memberFold`. -/
def curatorFold (users : List Replica) (info : List (Nat × MergeRec)) (cname : String) :
    List (Nat × MergeRec) :=
  match switchUser users cname with
  | none => info
  | some u =>
    if u.readFail then info
    else
      match u.playlist with
      | none => info
      | some items => items.foldl (foldPlaylistItem cname) info

/-- Collection phase of `sync_staff_picks` (lines 751-781): fold only the
curators' playlists, skipping curators whose scope cannot be reached. -/
def collectStaff (curators : List String) (st : StaffState) : List (Nat × MergeRec) :=
  curators.foldl (curatorFold st.users) []

/-- The dict returned by `sync_staff_picks`. -/
structure StaffResult where
  total : Nat
  tracks : List JamEntry
  usersUpdated : Nat
deriving DecidableEq, Repr

/-- The sequential write loop over home users (lines 839-858): non-home
users are not touched, a raising scope is caught and skipped, every other
home user's playlist is full-replaced with the merged list and counted. -/
def staffWriteLoop (tracks : List Track) : List Replica → List Replica × Nat
  | [] => ([], 0)
  | u :: us =>
    let r := staffWriteLoop tracks us
    if u.home = false then (u :: r.1, r.2)
    else if u.writeFail then (u :: r.1, r.2)
    else ({ u with playlist := some tracks } :: r.1, r.2 + 1)

/-- `sync_staff_picks(curators, playlist_name)`: merge from curators only,
early-return on an empty merge, otherwise full-replace onto the admin scope
first (lines 821-837) and then onto every home user, counting successful
writes in `users_updated`. -/
def syncStaffPicks (curators : List String) (st : StaffState) : StaffResult × StaffState :=
  let info := collectStaff curators st
  if info.isEmpty then ({ total := 0, tracks := [], usersUpdated := 0 }, st)
  else
    let sorted := mergedRecords info
    let tracksToSync := sorted.map MergeRec.track
    let adminPair : Option (List Track) × Nat :=
      if st.adminWriteFail then (st.adminPlaylist, 0) else (some tracksToSync, 1)
    let w := staffWriteLoop tracksToSync st.users
    ({ total := tracksToSync.length
       tracks := sorted.map jamEntryOf
       usersUpdated := adminPair.2 + w.2 },
      { st with adminPlaylist := adminPair.1, users := w.1 })

/-! ## Derived definitions used by the verification -/

/-- The key list of the `track_info` dict. -/
def keysOf (info : List (Nat × MergeRec)) : List Nat := info.map Prod.fst

/-- Relabeling of the display strings of a track; the canonical key and
both timestamps are untouched.  Used to state that every dedup decision
depends only on `ratingKey`, never on title or attribution strings. -/
def retitle (f g h : String → String) (t : Track) : Track :=
  { t with
    title := f t.title
    grandparentTitle := g t.grandparentTitle
    originalTitle := h t.originalTitle }

/-- Display-string relabeling applied across one replica's remote data. -/
def relabelReplica (f g h : String → String) (r : Replica) : Replica :=
  { r with
    ratedTracks := r.ratedTracks.map (retitle f g h)
    playlist := r.playlist.map (List.map (retitle f g h)) }

/-- The image of one merge record under display-string relabeling. -/
def relabelRec (f g h : String → String) (r : MergeRec) : MergeRec :=
  { track := retitle f g h r.track
    addedAt := r.addedAt
    addedBy := r.addedBy
    title := (retitle f g h r.track).title
    artist := displayArtist (retitle f g h r.track) }

/-! ### Concrete states used in counterexamples and witnesses -/

/-- A library track carrying only a catalog key. -/
def libTrack (k : Nat) : Track := ⟨k, "", "", "", none, none⟩

/-- A 5-star rated track: key `k`, last rated at time `r`. -/
def ratedTrack (k r : Nat) : Track := ⟨k, "", "", "", some r, none⟩

/-- A playlist-member track: key `k`, added at time `a`. -/
def addedTrack (k a : Nat) : Track := ⟨k, "", "", "", none, some a⟩

/-- C1 failing input: one contributor whose playlist already holds exactly
`max_songs = 50` tracks, none of which is its single fresh 5-star track. -/
def ravesBugContributor : Replica :=
  { name := "X", home := true
    ratedTracks := [ratedTrack 1 5]
    playlist := some ((List.range 50).map (fun i => libTrack (100 + i)))
    readFail := false, writeFail := false }

/-- C2 counterexample input: a contributor whose playlist already holds 51
tracks and whose 5-star track is already among them (no diff to add). -/
def overCapContributor : Replica :=
  { name := "X", home := true
    ratedTracks := [ratedTrack 100 5]
    playlist := some ((List.range 51).map (fun i => libTrack (100 + i)))
    readFail := false, writeFail := false }

/-- A contributor with a fresh rating and no playlist yet (C2 witness). -/
def freshContributor : Replica :=
  { name := "W", home := true, ratedTracks := [ratedTrack 7 3]
    playlist := none, readFail := false, writeFail := false }

/-- C4 scenario tracks: `T1` rated by A at day 1, `T2` rated by A at day 3
and by B at day 2 (per-scope `lastRatedAt`), `T3` rated by B at day 5. -/
def c4TrackT1 : Track := ⟨1, "T1", "Art", "", some 1, none⟩

def c4TrackT2A : Track := ⟨2, "T2", "Art", "", some 3, none⟩

def c4TrackT2B : Track := ⟨2, "T2", "Art", "", some 2, none⟩

def c4TrackT3 : Track := ⟨3, "T3", "Art", "", some 5, none⟩

/-- C4 scenario contributors [A, B, C]. -/
def c4Contributors : List Replica :=
  [⟨"A", true, [c4TrackT1, c4TrackT2A], none, false, false⟩,
   ⟨"B", true, [c4TrackT2B, c4TrackT3], none, false, false⟩,
   ⟨"C", true, [], none, false, false⟩]

/-- C6 scenario tracks. -/
def staffT1 : Track := ⟨1, "T1", "Art", "", none, some 10⟩

def staffT2 : Track := ⟨2, "T2", "Art", "", none, some 20⟩

/-- A track held only by the non-curator member D, witnessing that
non-curators are written to but never read from. -/
def staffT3 : Track := ⟨3, "T3", "Art", "", none, some 30⟩

/-- C6 scenario: full replica membership [A, B, C, D] where C is the
designated root/admin scope — the membership includes the root, and since
curators must be `switchUser`-reachable home users the root is C or D.
Curators A (holding T1) and B (holding T2) and the non-curator D (holding
T3, which is never read) are the home users; no failures. -/
def staffScenario : StaffState :=
  { adminPlaylist := none, adminWriteFail := false
    users :=
      [⟨"A", true, [], some [staffT1], false, false⟩,
       ⟨"B", true, [], some [staffT2], false, false⟩,
       ⟨"D", true, [], some [staffT3], false, false⟩] }

/-- C7 witness: the replica whose write fails. -/
def c7FailingReplica : Replica :=
  ⟨"B", true, [ratedTrack 1 5], none, false, false⟩

/-- C7 witness: the replica processed after the failing one. -/
def c7NextReplica : Replica :=
  ⟨"C", true, [], none, false, false⟩

/-- C8 counterexample: contributor A rated 50 distinct tracks at time 10
and the shared track (key 0) at time 1. -/
def c8ContributorA : Replica :=
  { name := "A", home := true
    ratedTracks :=
      ((List.range 50).map (fun i => ratedTrack (i + 1) 10)) ++ [ratedTrack 0 1]
    playlist := none, readFail := false, writeFail := false }

/-- C8 counterexample: contributor B also rated the shared track (key 0). -/
def c8ContributorB : Replica :=
  { name := "B", home := true, ratedTracks := [ratedTrack 0 1]
    playlist := none, readFail := false, writeFail := false }

/-- C10 witness: one member holding a timestamped and an untimestamped
track. -/
def c10Member : Replica :=
  ⟨"M", true, [], some [libTrack 4, addedTrack 5 9], false, false⟩

/-! ## Helper lemmas -/

theorem retitle_ratingKey (f g h : String → String) (t : Track) :
    (retitle f g h t).ratingKey = t.ratingKey := rfl

theorem retitle_lastRatedAt (f g h : String → String) (t : Track) :
    (retitle f g h t).lastRatedAt = t.lastRatedAt := rfl

theorem retitle_addedAt (f g h : String → String) (t : Track) :
    (retitle f g h t).addedAt = t.addedAt := rfl

theorem sortDescBy_cons {α : Type} (key : α → Nat) (a : α) (l : List α) :
    sortDescBy key (a :: l) = insertDescBy key a (sortDescBy key l) := rfl

theorem insertDescBy_perm {α : Type} (key : α → Nat) (a : α) (l : List α) :
    (insertDescBy key a l).Perm (a :: l) := by
  induction l with
  | nil => simp [insertDescBy]
  | cons b bs ih =>
    simp only [insertDescBy]
    split
    · exact List.Perm.refl _
    · exact (ih.cons b).trans (List.Perm.swap a b bs)

theorem sortDescBy_perm {α : Type} (key : α → Nat) (l : List α) :
    (sortDescBy key l).Perm l := by
  induction l with
  | nil => simp [sortDescBy]
  | cons a as ih =>
    rw [sortDescBy_cons]
    exact (insertDescBy_perm key a (sortDescBy key as)).trans (ih.cons a)

theorem sortDescBy_eq_nil_iff {α : Type} (key : α → Nat) (l : List α) :
    sortDescBy key l = [] ↔ l = [] := by
  have h := (sortDescBy_perm key l).length_eq
  constructor
  · intro hn
    rw [hn] at h
    exact List.length_eq_zero.mp h.symm
  · intro hn
    subst hn
    rfl

theorem pairwise_insertDescBy {α : Type} (key : α → Nat) (a : α) (l : List α)
    (h : l.Pairwise (fun x y => key y ≤ key x)) :
    (insertDescBy key a l).Pairwise (fun x y => key y ≤ key x) := by
  induction l with
  | nil => simp [insertDescBy]
  | cons b bs ih =>
    rw [List.pairwise_cons] at h
    obtain ⟨hb, hbs⟩ := h
    simp only [insertDescBy]
    split
    · rename_i hba
      refine List.pairwise_cons.mpr ⟨?_, List.pairwise_cons.mpr ⟨hb, hbs⟩⟩
      intro y hy
      rcases List.mem_cons.mp hy with rfl | hy2
      · exact hba
      · exact le_trans (hb y hy2) hba
    · rename_i hba
      refine List.pairwise_cons.mpr ⟨?_, ih hbs⟩
      intro y hy
      have hmem := (insertDescBy_perm key a bs).mem_iff.mp hy
      rcases List.mem_cons.mp hmem with rfl | hy2
      · omega
      · exact hb y hy2

theorem pairwise_sortDescBy {α : Type} (key : α → Nat) (l : List α) :
    (sortDescBy key l).Pairwise (fun x y => key y ≤ key x) := by
  induction l with
  | nil => simp [sortDescBy]
  | cons a as ih =>
    rw [sortDescBy_cons]
    exact pairwise_insertDescBy key a _ ih

theorem insertDescBy_map {α β : Type} (keyB : β → Nat) (keyA : α → Nat) (φ : α → β)
    (hk : ∀ x, keyB (φ x) = keyA x) (a : α) (l : List α) :
    insertDescBy keyB (φ a) (l.map φ) = (insertDescBy keyA a l).map φ := by
  induction l with
  | nil => rfl
  | cons b bs ih =>
    simp only [List.map_cons, insertDescBy, hk]
    split
    · simp
    · simp only [List.map_cons, ih]

theorem sortDescBy_map {α β : Type} (keyB : β → Nat) (keyA : α → Nat) (φ : α → β)
    (hk : ∀ x, keyB (φ x) = keyA x) (l : List α) :
    sortDescBy keyB (l.map φ) = (sortDescBy keyA l).map φ := by
  induction l with
  | nil => rfl
  | cons a as ih =>
    simp only [List.map_cons, sortDescBy_cons, ih]
    exact insertDescBy_map keyB keyA φ hk a _

theorem raveWriteLoop_eq (cap : Nat) (u : List Track) (cs : List Replica) :
    raveWriteLoop cap u cs =
      (cs.map (fun c => (updateOneRave cap u c).1),
        (cs.map (fun c => (updateOneRave cap u c).2)).sum) := by
  induction cs with
  | nil => rfl
  | cons c cs ih => simp [raveWriteLoop, ih]

theorem staffWriteLoop_eq (tracks : List Track) (us : List Replica) :
    staffWriteLoop tracks us =
      (us.map (fun u => if u.home = false then u else if u.writeFail then u
          else { u with playlist := some tracks }),
        (us.map (fun u => if u.home = false then (0 : Nat) else if u.writeFail then 0 else 1)).sum) := by
  induction us with
  | nil => rfl
  | cons u us ih =>
    simp only [staffWriteLoop, ih, List.map_cons, List.sum_cons]
    by_cases h1 : u.home = false
    · simp [h1]
    · by_cases h2 : u.writeFail
      · simp [h1, h2]
      · simp [h1, h2, Nat.add_comm]

theorem dedupeCapAux_length_le (cap : Nat) (l : List Track) : ∀ seen : List Nat,
    (dedupeCapAux cap seen l).length ≤ max 1 (cap - seen.length) := by
  induction l with
  | nil => intro seen; simp [dedupeCapAux]
  | cons t ts ih =>
    intro seen
    simp only [dedupeCapAux]
    split
    · exact ih seen
    · split
      · simp
      · rename_i h1 h2
        have h3 := ih (t.ratingKey :: seen)
        simp only [List.length_cons] at h3 ⊢
        omega

theorem dedupeCapAux_nodup (cap : Nat) (l : List Track) : ∀ seen : List Nat,
    ((dedupeCapAux cap seen l).map Track.ratingKey).Nodup ∧
      ∀ k ∈ (dedupeCapAux cap seen l).map Track.ratingKey, k ∉ seen := by
  induction l with
  | nil => intro seen; simp [dedupeCapAux]
  | cons t ts ih =>
    intro seen
    simp only [dedupeCapAux]
    split
    · exact ih seen
    · rename_i hts
      split
      · refine ⟨by simp, ?_⟩
        intro k hk
        simp only [List.map_cons, List.map_nil, List.mem_singleton] at hk
        subst hk
        exact hts
      · obtain ⟨ihn, ihs⟩ := ih (t.ratingKey :: seen)
        constructor
        · simp only [List.map_cons, List.nodup_cons]
          refine ⟨?_, ihn⟩
          intro hmem
          have h4 := ihs _ hmem
          simp at h4
        · intro k hk
          simp only [List.map_cons, List.mem_cons] at hk
          rcases hk with rfl | hk
          · exact hts
          · intro hks
            exact ihs k hk (List.mem_cons_of_mem _ hks)

theorem dedupeCapAux_ne_nil (cap : Nat) (t : Track) (ts : List Track) :
    dedupeCapAux cap [] (t :: ts) ≠ [] := by
  simp only [dedupeCapAux]
  split
  · rename_i hmem
    simp at hmem
  · split <;> simp

theorem collectRaves_aux (cs : List Replica) : ∀ acc : List (Track × String),
    cs.foldl
      (fun acc c =>
        if c.readFail then acc
        else acc ++ (c.ratedTracks.filter (fun t => t.lastRatedAt.isSome)).map
          (fun t => (t, c.name)))
      acc
      = acc ++ cs.flatMap
          (fun c =>
            if c.readFail then []
            else (c.ratedTracks.filter (fun t => t.lastRatedAt.isSome)).map
              (fun t => (t, c.name))) := by
  induction cs with
  | nil => intro acc; simp
  | cons c cs ih =>
    intro acc
    simp only [List.foldl_cons, List.flatMap_cons]
    by_cases h : c.readFail
    · simp [h, ih]
    · simp [h, ih]

theorem collectRaves_eq (cs : List Replica) :
    collectRaves cs = cs.flatMap
      (fun c =>
        if c.readFail then []
        else (c.ratedTracks.filter (fun t => t.lastRatedAt.isSome)).map
          (fun t => (t, c.name))) := by
  have h := collectRaves_aux cs []
  simpa [collectRaves] using h

theorem uniqueTracksOf_ne_nil (cap : Nat) (cs : List Replica)
    (h : collectRaves cs ≠ []) : uniqueTracksOf cap cs ≠ [] := by
  unfold uniqueTracksOf
  have hs : allRatedSorted cs ≠ [] := by
    unfold allRatedSorted
    intro hn
    rw [sortDescBy_eq_nil_iff] at hn
    exact h (List.map_eq_nil_iff.mp hn)
  cases hsort : allRatedSorted cs with
  | nil => exact absurd hsort hs
  | cons t ts => exact dedupeCapAux_ne_nil cap t ts

theorem lookup_eq_none_iff (info : List (Nat × MergeRec)) (k : Nat) :
    info.lookup k = none ↔ k ∉ keysOf info := by
  induction info with
  | nil => simp [keysOf, List.lookup]
  | cons p info ih =>
    obtain ⟨k2, r⟩ := p
    simp only [keysOf, List.map_cons, List.mem_cons, List.lookup_cons]
    by_cases h : k = k2
    · subst h
      simp
    · have hb : (k == k2) = false := by simp [h]
      rw [hb]
      simp only [h, false_or]
      exact ih

theorem lookup_some_mem_keys {info : List (Nat × MergeRec)} {k : Nat} {r : MergeRec}
    (h : info.lookup k = some r) : k ∈ keysOf info := by
  by_contra hk
  rw [← lookup_eq_none_iff] at hk
  rw [h] at hk
  cases hk

theorem updateRec_keys (info : List (Nat × MergeRec)) (k t : Nat) (u : String) :
    keysOf (updateRec info k t u) = keysOf info := by
  unfold updateRec keysOf
  rw [List.map_map]
  apply List.map_congr_left
  intro p _
  by_cases h : p.1 = k <;> simp [h]

theorem foldPlaylistItem_keys (u : String) (info : List (Nat × MergeRec)) (x : Track) :
    keysOf (foldPlaylistItem u info x) = keysOf info ∨
      keysOf (foldPlaylistItem u info x) = keysOf info ++ [x.ratingKey] := by
  cases hl : info.lookup x.ratingKey with
  | none =>
    right
    simp [foldPlaylistItem, hl, keysOf]
  | some ex =>
    left
    cases hx : x.addedAt with
    | none => simp [foldPlaylistItem, hl, hx]
    | some t =>
      cases he : ex.addedAt with
      | none => simp [foldPlaylistItem, hl, hx, he, updateRec_keys]
      | some te =>
        by_cases hlt : t < te
        · simp [foldPlaylistItem, hl, hx, he, hlt, updateRec_keys]
        · simp [foldPlaylistItem, hl, hx, he, hlt]

theorem foldPlaylistItem_key_mem (u : String) (info : List (Nat × MergeRec)) (x : Track) :
    x.ratingKey ∈ keysOf (foldPlaylistItem u info x) := by
  rcases foldPlaylistItem_keys u info x with h | h
  · rw [h]
    cases hl : info.lookup x.ratingKey with
    | none =>
      exfalso
      simp only [foldPlaylistItem, hl, keysOf, List.map_append] at h
      have hlen := congrArg List.length h
      simp at hlen
    | some ex => exact lookup_some_mem_keys hl
  · rw [h]
    exact List.mem_append_right _ (List.mem_singleton_self _)

theorem foldItems_keys_ext (u : String) (items : List Track) :
    ∀ info, ∃ ext, keysOf (items.foldl (foldPlaylistItem u) info) = keysOf info ++ ext := by
  induction items with
  | nil => intro info; exact ⟨[], by simp⟩
  | cons x xs ih =>
    intro info
    obtain ⟨ext1, h1⟩ := ih (foldPlaylistItem u info x)
    rcases foldPlaylistItem_keys u info x with h | h
    · exact ⟨ext1, by rw [List.foldl_cons, h1, h]⟩
    · exact ⟨x.ratingKey :: ext1, by rw [List.foldl_cons, h1, h, List.append_assoc]; rfl⟩

theorem memberFold_keys_ext (info : List (Nat × MergeRec)) (m : Replica) :
    ∃ ext, keysOf (memberFold info m) = keysOf info ++ ext := by
  unfold memberFold
  split
  · exact ⟨[], by simp⟩
  · split
    · exact ⟨[], by simp⟩
    · exact foldItems_keys_ext m.name _ info

theorem foldMembers_keys_ext (ms : List Replica) :
    ∀ info, ∃ ext, keysOf (ms.foldl memberFold info) = keysOf info ++ ext := by
  induction ms with
  | nil => intro info; exact ⟨[], by simp⟩
  | cons m ms ih =>
    intro info
    obtain ⟨ext1, h1⟩ := memberFold_keys_ext info m
    obtain ⟨ext2, h2⟩ := ih (memberFold info m)
    exact ⟨ext1 ++ ext2, by rw [List.foldl_cons, h2, h1, List.append_assoc]⟩

theorem mem_keys_foldItems (u : String) (x : Track) :
    ∀ items : List Track, x ∈ items →
      ∀ info, x.ratingKey ∈ keysOf (items.foldl (foldPlaylistItem u) info) := by
  intro items
  induction items with
  | nil => intro hx; cases hx
  | cons y ys ih =>
    intro hx info
    rcases List.mem_cons.mp hx with rfl | hx2
    · rw [List.foldl_cons]
      obtain ⟨ext, hext⟩ := foldItems_keys_ext u ys (foldPlaylistItem u info x)
      rw [hext]
      exact List.mem_append_left _ (foldPlaylistItem_key_mem u info x)
    · exact ih hx2 (foldPlaylistItem u info y)

theorem mem_keys_collectMembership (ms : List Replica) (m : Replica) (hm : m ∈ ms)
    (hr : m.readFail = false) (items : List Track) (hp : m.playlist = some items)
    (x : Track) (hx : x ∈ items) :
    x.ratingKey ∈ keysOf (collectMembership ms) := by
  obtain ⟨ms1, ms2, rfl⟩ := List.append_of_mem hm
  unfold collectMembership
  rw [List.foldl_append, List.foldl_cons]
  obtain ⟨ext, hext⟩ := foldMembers_keys_ext ms2 (memberFold (List.foldl memberFold [] ms1) m)
  rw [hext]
  apply List.mem_append_left
  unfold memberFold
  rw [hr, hp]
  simp only [Bool.false_eq_true, if_false]
  exact mem_keys_foldItems m.name x items hx _

theorem keysOf_append (a b : List (Nat × MergeRec)) :
    keysOf (a ++ b) = keysOf a ++ keysOf b := List.map_append _ _ _

theorem foldPlaylistItem_keys_nodup (u : String) (info : List (Nat × MergeRec)) (x : Track)
    (h : (keysOf info).Nodup) : (keysOf (foldPlaylistItem u info x)).Nodup := by
  cases hl : info.lookup x.ratingKey with
  | none =>
    have hnot : x.ratingKey ∉ keysOf info := (lookup_eq_none_iff info x.ratingKey).mp hl
    simp only [foldPlaylistItem, hl, keysOf_append]
    rw [List.nodup_append]
    refine ⟨h, List.nodup_singleton _, ?_⟩
    intro a ha hb
    rw [show keysOf [(x.ratingKey,
      { track := x, addedAt := x.addedAt, addedBy := u, title := x.title,
        artist := displayArtist x })] = [x.ratingKey] from rfl] at hb
    rw [List.mem_singleton] at hb
    subst hb
    exact hnot ha
  | some ex =>
    cases hx : x.addedAt with
    | none => simpa [foldPlaylistItem, hl, hx] using h
    | some t =>
      cases he : ex.addedAt with
      | none => simpa [foldPlaylistItem, hl, hx, he, updateRec_keys] using h
      | some te =>
        by_cases hlt : t < te
        · simpa [foldPlaylistItem, hl, hx, he, hlt, updateRec_keys] using h
        · simpa [foldPlaylistItem, hl, hx, he, hlt] using h

theorem foldItems_keys_nodup (u : String) (items : List Track) :
    ∀ info, (keysOf info).Nodup → (keysOf (items.foldl (foldPlaylistItem u) info)).Nodup := by
  induction items with
  | nil => intro info h; exact h
  | cons x xs ih =>
    intro info h
    exact ih _ (foldPlaylistItem_keys_nodup u info x h)

theorem memberFold_keys_nodup (info : List (Nat × MergeRec)) (m : Replica)
    (h : (keysOf info).Nodup) : (keysOf (memberFold info m)).Nodup := by
  unfold memberFold
  split
  · exact h
  · split
    · exact h
    · exact foldItems_keys_nodup m.name _ info h

theorem foldMembers_keys_nodup (ms : List Replica) :
    ∀ info, (keysOf info).Nodup → (keysOf (ms.foldl memberFold info)).Nodup := by
  induction ms with
  | nil => intro info h; exact h
  | cons m ms ih =>
    intro info h
    exact ih _ (memberFold_keys_nodup info m h)

theorem collectMembership_keys_nodup (ms : List Replica) :
    (keysOf (collectMembership ms)).Nodup :=
  foldMembers_keys_nodup ms [] (by simp [keysOf])

theorem lookup_map_relabel (f g h : String → String) (info : List (Nat × MergeRec)) (k : Nat) :
    (info.map (fun p => (p.1, relabelRec f g h p.2))).lookup k
      = (info.lookup k).map (relabelRec f g h) := by
  induction info with
  | nil => rfl
  | cons p info ih =>
    obtain ⟨k2, r⟩ := p
    simp only [List.map_cons, List.lookup_cons]
    cases hk : (k == k2)
    · simpa using ih
    · simp

theorem updateRec_map_relabel (f g h : String → String) (info : List (Nat × MergeRec))
    (k t : Nat) (u : String) :
    updateRec (info.map (fun p => (p.1, relabelRec f g h p.2))) k t u
      = (updateRec info k t u).map (fun p => (p.1, relabelRec f g h p.2)) := by
  unfold updateRec
  rw [List.map_map, List.map_map]
  apply List.map_congr_left
  intro p _
  by_cases hp : p.1 = k
  · simp [hp, relabelRec]
  · simp [hp]

theorem foldPlaylistItem_relabel (f g h : String → String) (u : String)
    (info : List (Nat × MergeRec)) (x : Track) :
    foldPlaylistItem u (info.map (fun p => (p.1, relabelRec f g h p.2))) (retitle f g h x)
      = (foldPlaylistItem u info x).map (fun p => (p.1, relabelRec f g h p.2)) := by
  cases hl : info.lookup x.ratingKey with
  | none =>
    have hl2 : (info.map (fun p => (p.1, relabelRec f g h p.2))).lookup
        x.ratingKey = none := by
      rw [lookup_map_relabel, hl]
      rfl
    simp only [foldPlaylistItem, retitle_ratingKey, hl, hl2, List.map_append]
    rfl
  | some ex =>
    have hl2 : (info.map (fun p => (p.1, relabelRec f g h p.2))).lookup
        x.ratingKey = some (relabelRec f g h ex) := by
      rw [lookup_map_relabel, hl]
      rfl
    cases hx : x.addedAt with
    | none =>
      have hx2 : (retitle f g h x).addedAt = none := by rw [retitle_addedAt, hx]
      simp only [foldPlaylistItem, retitle_ratingKey, hl, hl2, hx, hx2]
    | some t =>
      have hx2 : (retitle f g h x).addedAt = some t := by rw [retitle_addedAt, hx]
      cases he : ex.addedAt with
      | none =>
        have he2 : (relabelRec f g h ex).addedAt = none := by simp [relabelRec, he]
        simp only [foldPlaylistItem, retitle_ratingKey, hl, hl2, hx, hx2, he, he2]
        exact updateRec_map_relabel f g h info x.ratingKey t u
      | some te =>
        have he2 : (relabelRec f g h ex).addedAt = some te := by simp [relabelRec, he]
        by_cases hlt : t < te
        · simp only [foldPlaylistItem, retitle_ratingKey, hl, hl2, hx, hx2, he, he2, hlt,
            if_true]
          exact updateRec_map_relabel f g h info x.ratingKey t u
        · simp only [foldPlaylistItem, retitle_ratingKey, hl, hl2, hx, hx2, he, he2, hlt,
            if_false]

theorem foldItems_relabel (f g h : String → String) (u : String) (items : List Track) :
    ∀ info, (items.map (retitle f g h)).foldl (foldPlaylistItem u)
        (info.map (fun p => (p.1, relabelRec f g h p.2)))
      = (items.foldl (foldPlaylistItem u) info).map (fun p => (p.1, relabelRec f g h p.2)) := by
  induction items with
  | nil => intro info; rfl
  | cons x xs ih =>
    intro info
    simp only [List.map_cons, List.foldl_cons, foldPlaylistItem_relabel]
    exact ih _

theorem memberFold_relabel (f g h : String → String) (info : List (Nat × MergeRec))
    (m : Replica) :
    memberFold (info.map (fun p => (p.1, relabelRec f g h p.2))) (relabelReplica f g h m)
      = (memberFold info m).map (fun p => (p.1, relabelRec f g h p.2)) := by
  unfold memberFold relabelReplica
  cases hrf : m.readFail
  · cases hp : m.playlist with
    | none => simp [hrf, hp]
    | some items => simp [hrf, hp, foldItems_relabel]
  · simp [hrf]

theorem collectMembership_relabel (f g h : String → String) (ms : List Replica) :
    collectMembership (ms.map (relabelReplica f g h))
      = (collectMembership ms).map (fun p => (p.1, relabelRec f g h p.2)) := by
  unfold collectMembership
  suffices haux : ∀ info, (ms.map (relabelReplica f g h)).foldl memberFold
      (info.map (fun p => (p.1, relabelRec f g h p.2)))
      = (ms.foldl memberFold info).map (fun p => (p.1, relabelRec f g h p.2)) by
    simpa using haux []
  induction ms with
  | nil => intro info; rfl
  | cons m ms ih =>
    intro info
    simp only [List.map_cons, List.foldl_cons, memberFold_relabel]
    exact ih _

theorem keysOf_map_relabel (f g h : String → String) (info : List (Nat × MergeRec)) :
    keysOf (info.map (fun p => (p.1, relabelRec f g h p.2))) = keysOf info := by
  unfold keysOf
  rw [List.map_map]
  rfl

theorem ravesStep_relabel (f g h : String → String) (c : Replica) :
    (if (relabelReplica f g h c).readFail then []
      else ((relabelReplica f g h c).ratedTracks.filter (fun t => t.lastRatedAt.isSome)).map
        (fun t => (t, (relabelReplica f g h c).name)))
    = (if c.readFail then []
        else (c.ratedTracks.filter (fun t => t.lastRatedAt.isSome)).map
          (fun t => (t, c.name))).map
        (fun p => (retitle f g h p.1, p.2)) := by
  cases hrf : c.readFail
  · simp only [relabelReplica, hrf, Bool.false_eq_true, if_false]
    rw [List.filter_map, List.map_map, List.map_map]
    rfl
  · simp [relabelReplica, hrf]

theorem collectRaves_relabel (f g h : String → String) (cs : List Replica) :
    collectRaves (cs.map (relabelReplica f g h))
      = (collectRaves cs).map (fun p => (retitle f g h p.1, p.2)) := by
  rw [collectRaves_eq, collectRaves_eq]
  induction cs with
  | nil => rfl
  | cons c cs ih =>
    simp only [List.map_cons, List.flatMap_cons, List.map_append]
    rw [ih, ravesStep_relabel]

theorem allRatedSorted_relabel (f g h : String → String) (cs : List Replica) :
    allRatedSorted (cs.map (relabelReplica f g h))
      = (allRatedSorted cs).map (retitle f g h) := by
  unfold allRatedSorted
  rw [collectRaves_relabel, List.map_map]
  rw [show (Prod.fst ∘ fun p : Track × String => (retitle f g h p.1, p.2))
      = (retitle f g h ∘ Prod.fst) from rfl]
  rw [← List.map_map]
  exact sortDescBy_map ratedKey ratedKey (retitle f g h) (fun x => rfl) _

theorem dedupeCapAux_map_keys (f g h : String → String) (cap : Nat) (l : List Track) :
    ∀ seen, (dedupeCapAux cap seen (l.map (retitle f g h))).map Track.ratingKey
      = (dedupeCapAux cap seen l).map Track.ratingKey := by
  induction l with
  | nil => intro seen; rfl
  | cons t ts ih =>
    intro seen
    simp only [List.map_cons, dedupeCapAux, retitle_ratingKey]
    by_cases hm : t.ratingKey ∈ seen
    · simp only [hm, if_true]
      exact ih seen
    · simp only [hm, if_false]
      by_cases hc : cap ≤ seen.length + 1
      · simp [hc, retitle_ratingKey]
      · simp only [hc, if_false, List.map_cons, retitle_ratingKey]
        rw [ih (t.ratingKey :: seen)]

theorem uniqueTracksOf_relabel (f g h : String → String) (cap : Nat) (cs : List Replica) :
    (uniqueTracksOf cap (cs.map (relabelReplica f g h))).map Track.ratingKey
      = (uniqueTracksOf cap cs).map Track.ratingKey := by
  unfold uniqueTracksOf
  rw [allRatedSorted_relabel]
  exact dedupeCapAux_map_keys f g h cap _ []

theorem isEmpty_false_of_ne_nil {α : Type} {l : List α} (h : l ≠ []) :
    l.isEmpty = false := by
  cases l with
  | nil => exact absurd rfl h
  | cons a as => rfl

theorem zip_self_eq {α : Type} (l : List α) : l.zip l = l.map (fun x => (x, x)) := by
  have h := List.zip_map' (@id α) (@id α) l
  simpa using h

theorem zip_map_self {α β : Type} (f : α → β) (l : List α) :
    l.zip (l.map f) = l.map (fun x => (x, f x)) := by
  have h := List.zip_map' (@id α) f l
  simpa using h

theorem uniqueTracksOf_length_le (cap : Nat) (cs : List Replica) (hcap : 1 ≤ cap) :
    (uniqueTracksOf cap cs).length ≤ cap := by
  have h := dedupeCapAux_length_le cap (allRatedSorted cs) []
  unfold uniqueTracksOf
  simp only [List.length_nil, Nat.sub_zero] at h
  omega

theorem updateOneRave_playlist (cap : Nat) (u : List Track) (c : Replica) :
    (updateOneRave cap u c).1.playlist = c.playlist ∨
      ∃ l, (updateOneRave cap u c).1.playlist = some l ∧ l.length ≤ max cap u.length := by
  unfold updateOneRave
  split
  · left; rfl
  · split
    · dsimp only
      split
      · left; rfl
      · right
        dsimp only
        refine ⟨_, rfl, ?_⟩
        split
        · rw [List.length_take]
          exact le_trans inf_le_left (le_max_left _ _)
        · rename_i hlt
          exact le_trans (Nat.le_of_not_lt hlt) (le_max_left _ _)
    · right
      exact ⟨u, rfl, le_max_right _ _⟩

theorem updateRecentRaves_run (cap : Nat) (cs : List Replica)
    (h1 : (collectRaves cs).isEmpty = false)
    (h2 : (uniqueTracksOf cap cs).isEmpty = false) :
    updateRecentRaves cap cs =
      ({ added := (cs.map (fun c => (updateOneRave cap (uniqueTracksOf cap cs) c).2)).sum
         total := (uniqueTracksOf cap cs).length
         tracks := (uniqueTracksOf cap cs).map (raveEntry (collectRaves cs)) },
        cs.map (fun c => (updateOneRave cap (uniqueTracksOf cap cs) c).1)) := by
  simp only [updateRecentRaves, h1, h2, Bool.false_eq_true, if_false, raveWriteLoop_eq]

theorem collectRaves_writeFail_middle (pre post : List Replica) (b : Replica) :
    collectRaves (pre ++ { b with writeFail := true } :: post)
      = collectRaves (pre ++ b :: post) := by
  rw [collectRaves_eq, collectRaves_eq, List.flatMap_append, List.flatMap_append,
    List.flatMap_cons, List.flatMap_cons]

/-! ## Claim theorems -/

/-- C1 (code bug): the Incremental-Capped policy is not idempotent.  On a
contributor whose playlist already holds 50 tracks, the first run appends
the one fresh 5-star track and then trims `current_items[max_songs:]` — the
end of the playlist, which after `addItems` holds exactly the just-added
track (the code comment claims the end is the oldest).  The run therefore
leaves the remote state unchanged and every rerun, with source data
unchanged, returns `added = 1`, not `0`. -/
theorem c1_trim_defeats_idempotence :
    (updateRecentRaves 50 [ravesBugContributor]).2 = [ravesBugContributor] ∧
    (updateRecentRaves 50 [ravesBugContributor]).1.added = 1 ∧
    (updateRecentRaves 50 ((updateRecentRaves 50 [ravesBugContributor]).2)).1.added = 1 :=
  ⟨by decide, by decide, by decide⟩

/-- C2 (counterexample): a contributor whose playlist already holds 51
tracks and to which the run adds nothing keeps all 51 tracks — the claimed
unconditional cap invariant fails, because the trim only runs inside the
`if new_tracks:` branch. -/
theorem c2_overfull_counterexample :
    ((updateRecentRaves 50 [overCapContributor]).2.map
      (fun c => (c.playlist.getD []).length)) = [51] ∧ ¬ (51 ≤ 50) :=
  ⟨by decide, by decide⟩

/-- C2 (amended): every contributor whose playlist the run actually
modifies (created, or appended-to and possibly trimmed past the cap
boundary by position) ends with at most 50 items; a replica the run leaves
untouched keeps its playlist, even if longer than the cap. -/
theorem c2_cap_after_write (cs : List Replica) :
    ∀ p ∈ cs.zip (updateRecentRaves 50 cs).2, p.2.playlist ≠ p.1.playlist →
      ∀ l, p.2.playlist = some l → l.length ≤ 50 := by
  intro p hp hne l hl
  by_cases hc : collectRaves cs = []
  · have h2 : (updateRecentRaves 50 cs).2 = cs := by
      simp [updateRecentRaves, hc]
    rw [h2, zip_self_eq, List.mem_map] at hp
    obtain ⟨c, hc2, rfl⟩ := hp
    exact absurd rfl hne
  · have h1 := isEmpty_false_of_ne_nil hc
    have h2 := isEmpty_false_of_ne_nil (uniqueTracksOf_ne_nil 50 cs hc)
    rw [updateRecentRaves_run 50 cs h1 h2] at hp
    dsimp only at hp
    rw [zip_map_self, List.mem_map] at hp
    obtain ⟨c, hc2, rfl⟩ := hp
    dsimp only at hne hl
    rcases updateOneRave_playlist 50 (uniqueTracksOf 50 cs) c with h | ⟨l2, hl2, hlen⟩
    · exact absurd h hne
    · rw [hl2] at hl
      injection hl with hinj
      subst hinj
      have hu := uniqueTracksOf_length_le 50 cs (by omega)
      exact le_trans hlen (max_le (le_refl 50) hu)

/-- C2 witness: a contributor with no playlist gets one created with the
single merged track; the amended cap bound holds there. -/
theorem c2_cap_after_write_witness :
    (freshContributor,
        { freshContributor with playlist := some [ratedTrack 7 3] }) ∈
      [freshContributor].zip (updateRecentRaves 50 [freshContributor]).2 ∧
    ([ratedTrack 7 3] : List Track).length ≤ 50 :=
  ⟨by decide,
    c2_cap_after_write [freshContributor]
      (freshContributor, { freshContributor with playlist := some [ratedTrack 7 3] })
      (by decide) (by decide) [ratedTrack 7 3] (by decide)⟩

/-- C3 (confirmed): earliest-wins membership merge.  If item X carries
`addedAt = t1` in replica A's playlist and `t2 > t1` in replica B's, the
merge record for X holds timestamp `t1` attributed to A, whichever of the
two fold orders is used. -/
theorem c3_earliest_wins (k t1 t2 : Nat) (x1 x2 : Track) (a b : String)
    (hA hB wA wB : Bool) (rtA rtB : List Track)
    (hk1 : x1.ratingKey = k) (hk2 : x2.ratingKey = k)
    (ht1 : x1.addedAt = some t1) (ht2 : x2.addedAt = some t2) (hlt : t1 < t2) :
    ((collectMembership [⟨a, hA, rtA, some [x1], false, wA⟩,
        ⟨b, hB, rtB, some [x2], false, wB⟩]).lookup k).map
        (fun r => (r.addedAt, r.addedBy)) = some (some t1, a) ∧
    ((collectMembership [⟨b, hB, rtB, some [x2], false, wB⟩,
        ⟨a, hA, rtA, some [x1], false, wA⟩]).lookup k).map
        (fun r => (r.addedAt, r.addedBy)) = some (some t1, a) := by
  obtain ⟨k1, ti1, g1, o1, lr1, ad1⟩ := x1
  obtain ⟨k2, ti2, g2, o2, lr2, ad2⟩ := x2
  simp only [Track.ratingKey] at hk1 hk2
  simp only [Track.addedAt] at ht1 ht2
  subst hk1
  subst hk2
  subst ht1
  subst ht2
  have hne : ¬ t2 < t1 := by omega
  constructor
  · simp [collectMembership, memberFold, foldPlaylistItem, updateRec, List.lookup, hne]
  · simp [collectMembership, memberFold, foldPlaylistItem, updateRec, List.lookup, hlt]

/-- C3 witness at a concrete input. -/
theorem c3_earliest_wins_witness :
    (2 : Nat) < 5 ∧
    ((collectMembership [⟨"A", true, [], some [addedTrack 9 2], false, false⟩,
        ⟨"B", true, [], some [addedTrack 9 5], false, false⟩]).lookup 9).map
        (fun r => (r.addedAt, r.addedBy)) = some (some 2, "A") :=
  ⟨by decide, (c3_earliest_wins 9 2 5 (addedTrack 9 2) (addedTrack 9 5) "A" "B"
      true true false false [] [] rfl rfl rfl rfl (by decide)).1⟩

/-- C4 (counterexample): in the reference scenario the merged entry for T2
is attributed to B (the last contributor in list order whose scope rated
it, via the overwriting `track_users` assignment), not to A as the claim
states. -/
theorem c4_attribution_counterexample :
    ((updateRecentRaves 50 c4Contributors).1.tracks.map (fun e => e.user))
      ≠ ["B", "A", "A"] := by
  decide

/-- C4 (amended): the rating merge sorts by `lastRatedAt` descending and
dedups keeping the first occurrence, so the kept record carries the latest
rating timestamp; but each item is attributed to the last contributor in
the given contributor order who rated it.  The scenario output is
[T3@5(B), T2@3(B), T1@1(A)]. -/
theorem c4_rating_merge_scenario :
    (updateRecentRaves 50 c4Contributors).1.tracks =
      [⟨"T3", "Art", "B", some 5⟩, ⟨"T2", "Art", "B", some 3⟩,
       ⟨"T1", "Art", "A", some 1⟩] ∧
    (updateRecentRaves 50 c4Contributors).1.total = 3 :=
  ⟨by decide, by decide⟩

/-- C5 (confirmed): full-replace convergence of `sync_jam_jar`.  When the
merge is nonempty, every member whose write succeeds ends the pass with
playlist contents exactly the merged ordered list (an existing playlist is
cleared and rewritten; an absent one is created). -/
theorem c5_full_replace_convergence (ms : List Replica)
    (hne : collectMembership ms ≠ []) :
    ∀ p ∈ ms.zip (syncJamJar ms).2, p.1.writeFail = false →
      p.2.playlist = some (jamMergedTracks ms) := by
  intro p hp hw
  have hie := isEmpty_false_of_ne_nil hne
  have h2 : (syncJamJar ms).2 = ms.map (writeReplace (jamMergedTracks ms)) := by
    simp only [syncJamJar, hie, Bool.false_eq_true, if_false]
    rfl
  rw [h2, zip_map_self, List.mem_map] at hp
  obtain ⟨c, hc, rfl⟩ := hp
  dsimp only at hw ⊢
  unfold writeReplace
  rw [hw]
  simp only [Bool.false_eq_true, if_false]
  cases hpl : c.playlist <;> rfl

/-- C5 witness at a concrete input. -/
theorem c5_full_replace_convergence_witness :
    collectMembership [c10Member] ≠ [] ∧
    ({ c10Member with playlist := some (jamMergedTracks [c10Member]) }).playlist
      = some (jamMergedTracks [c10Member]) :=
  ⟨by decide,
    c5_full_replace_convergence [c10Member] (by decide)
      (c10Member, { c10Member with playlist := some (jamMergedTracks [c10Member]) })
      (by decide) (by decide)⟩

/-- C6 (confirmed): broadcast read/write scope.  In the reference
scenario the four-member replica membership [A, B, C, D] includes the
designated root/admin scope (C — the only placement, up to symmetry with
D, consistent with curators A and B being `switchUser`-reachable home
users).  The merge is computed from the curators A and B only — D's
pre-existing track T3 never reaches it, so the merged total is 2 — and
the merged set is full-replaced onto the root scope C and onto every
other known replica regardless of contribution: C's and D's playlists
both equal the merged {T1, T2} afterwards, and `users_updated` = 4 (the
root plus the home users A, B, D), a count distinct from the merged item
total. -/
theorem c6_broadcast_scenario :
    (syncStaffPicks ["A", "B"] staffScenario).1.total = 2 ∧
    (syncStaffPicks ["A", "B"] staffScenario).1.usersUpdated = 4 ∧
    (syncStaffPicks ["A", "B"] staffScenario).2.adminPlaylist
      = some [staffT2, staffT1] ∧
    ((syncStaffPicks ["A", "B"] staffScenario).2.users.map
      (fun u => (u.name, u.playlist))) =
      [("A", some [staffT2, staffT1]), ("B", some [staffT2, staffT1]),
       ("D", some [staffT2, staffT1])] ∧
    (4 : Nat) ≠ 2 :=
  ⟨by decide, by decide, by decide, by decide, by decide⟩

/-- C7 (confirmed): partial failure isolation in `update_recent_raves`.
If replica `b`'s write raises (modelled by flipping its `writeFail` flag),
the merge totals and track list are unchanged, every replica before and
after `b` still receives exactly the write it would have received, `b`
itself is left untouched, and the failure only subtracts `b`'s own count
from `added`.  The operation is a total function, so no exception escapes. -/
theorem c7_failure_isolation (cap : Nat) (pre post : List Replica) (b : Replica)
    (_hb : b.writeFail = false)
    (hne : collectRaves (pre ++ b :: post) ≠ []) :
    (updateRecentRaves cap (pre ++ { b with writeFail := true } :: post)).1.total =
        (updateRecentRaves cap (pre ++ b :: post)).1.total ∧
    (updateRecentRaves cap (pre ++ { b with writeFail := true } :: post)).1.tracks =
        (updateRecentRaves cap (pre ++ b :: post)).1.tracks ∧
    (updateRecentRaves cap (pre ++ { b with writeFail := true } :: post)).1.added +
        (updateOneRave cap (uniqueTracksOf cap (pre ++ b :: post)) b).2 =
        (updateRecentRaves cap (pre ++ b :: post)).1.added ∧
    (updateRecentRaves cap (pre ++ { b with writeFail := true } :: post)).2 =
        (updateRecentRaves cap (pre ++ b :: post)).2.take pre.length ++
          { b with writeFail := true } ::
            (updateRecentRaves cap (pre ++ b :: post)).2.drop (pre.length + 1) := by
  have hcoll := collectRaves_writeFail_middle pre post b
  have hu : uniqueTracksOf cap (pre ++ { b with writeFail := true } :: post)
      = uniqueTracksOf cap (pre ++ b :: post) := by
    unfold uniqueTracksOf allRatedSorted
    rw [hcoll]
  have h1 := isEmpty_false_of_ne_nil hne
  have h1b : (collectRaves (pre ++ { b with writeFail := true } :: post)).isEmpty
      = false := by
    rw [hcoll]
    exact h1
  have h2 := isEmpty_false_of_ne_nil (uniqueTracksOf_ne_nil cap _ hne)
  have h2b : (uniqueTracksOf cap
      (pre ++ { b with writeFail := true } :: post)).isEmpty = false := by
    rw [hu]
    exact h2
  rw [updateRecentRaves_run cap _ h1 h2, updateRecentRaves_run cap _ h1b h2b]
  dsimp only
  rw [hcoll, hu]
  simp only [List.map_append, List.map_cons, List.sum_append, List.sum_cons]
  have hbf2 : (updateOneRave cap (uniqueTracksOf cap (pre ++ b :: post))
      { b with writeFail := true }).2 = 0 := rfl
  have hbf1 : (updateOneRave cap (uniqueTracksOf cap (pre ++ b :: post))
      { b with writeFail := true }).1 = { b with writeFail := true } := rfl
  rw [hbf1, hbf2]
  refine ⟨trivial, trivial, by omega, ?_⟩
  have htake : (List.map (fun c => (updateOneRave cap
        (uniqueTracksOf cap (pre ++ b :: post)) c).1) pre ++
        (updateOneRave cap (uniqueTracksOf cap (pre ++ b :: post)) b).1 ::
        List.map (fun c => (updateOneRave cap
          (uniqueTracksOf cap (pre ++ b :: post)) c).1) post).take pre.length
      = List.map (fun c => (updateOneRave cap
          (uniqueTracksOf cap (pre ++ b :: post)) c).1) pre := by
    rw [show pre.length = (List.map (fun c => (updateOneRave cap
        (uniqueTracksOf cap (pre ++ b :: post)) c).1) pre).length
      from (List.length_map _ _).symm]
    exact List.take_left _ _
  have hdrop : (List.map (fun c => (updateOneRave cap
        (uniqueTracksOf cap (pre ++ b :: post)) c).1) pre ++
        (updateOneRave cap (uniqueTracksOf cap (pre ++ b :: post)) b).1 ::
        List.map (fun c => (updateOneRave cap
          (uniqueTracksOf cap (pre ++ b :: post)) c).1) post).drop (pre.length + 1)
      = List.map (fun c => (updateOneRave cap
          (uniqueTracksOf cap (pre ++ b :: post)) c).1) post := by
    rw [show (List.map (fun c => (updateOneRave cap
          (uniqueTracksOf cap (pre ++ b :: post)) c).1) pre ++
          (updateOneRave cap (uniqueTracksOf cap (pre ++ b :: post)) b).1 ::
          List.map (fun c => (updateOneRave cap
            (uniqueTracksOf cap (pre ++ b :: post)) c).1) post)
        = (List.map (fun c => (updateOneRave cap
            (uniqueTracksOf cap (pre ++ b :: post)) c).1) pre ++
            [(updateOneRave cap (uniqueTracksOf cap (pre ++ b :: post)) b).1]) ++
            List.map (fun c => (updateOneRave cap
              (uniqueTracksOf cap (pre ++ b :: post)) c).1) post by simp]
    rw [show pre.length + 1 = (List.map (fun c => (updateOneRave cap
        (uniqueTracksOf cap (pre ++ b :: post)) c).1) pre ++
        [(updateOneRave cap (uniqueTracksOf cap (pre ++ b :: post)) b).1]).length
      by simp]
    exact List.drop_left _ _
  rw [htake, hdrop]

/-- C7 witness at a concrete input: one failing replica followed by one
healthy replica. -/
theorem c7_failure_isolation_witness :
    c7FailingReplica.writeFail = false ∧
    collectRaves [c7FailingReplica, c7NextReplica] ≠ [] ∧
    ((updateRecentRaves 50 [{ c7FailingReplica with writeFail := true },
        c7NextReplica]).1.total =
        (updateRecentRaves 50 [c7FailingReplica, c7NextReplica]).1.total ∧
      (updateRecentRaves 50 [{ c7FailingReplica with writeFail := true },
          c7NextReplica]).1.tracks =
        (updateRecentRaves 50 [c7FailingReplica, c7NextReplica]).1.tracks ∧
      (updateRecentRaves 50 [{ c7FailingReplica with writeFail := true },
          c7NextReplica]).1.added +
          (updateOneRave 50 (uniqueTracksOf 50 [c7FailingReplica, c7NextReplica])
            c7FailingReplica).2 =
        (updateRecentRaves 50 [c7FailingReplica, c7NextReplica]).1.added ∧
      (updateRecentRaves 50 [{ c7FailingReplica with writeFail := true },
          c7NextReplica]).2 =
        (updateRecentRaves 50 [c7FailingReplica, c7NextReplica]).2.take 0 ++
          { c7FailingReplica with writeFail := true } ::
            (updateRecentRaves 50 [c7FailingReplica, c7NextReplica]).2.drop 1) :=
  ⟨rfl, by decide,
    c7_failure_isolation 50 [] [c7NextReplica] c7FailingReplica rfl (by decide)⟩

/-- C8 (counterexample): both contributors rate the shared track with key
0, yet with 51 distinct keys in play the capped dedup drops it entirely —
the merged output holds zero entries for that key, not exactly one. -/
theorem c8_capped_key_dropped :
    ((collectRaves [c8ContributorA, c8ContributorB]).countP
      (fun p => p.1.ratingKey == 0)) = 2 ∧
    ((uniqueTracksOf 50 [c8ContributorA, c8ContributorB]).map Track.ratingKey).count 0
      = 0 :=
  ⟨by decide, by decide⟩

/-- C8 (amended): every merged output carries at most one entry per
canonical key (exactly one, for the uncapped membership merge, for every
key contributed by a readable replica), and the dedup decisions depend
only on `ratingKey`: relabeling every title/artist string leaves the
surviving key sequence of both merge pipelines unchanged. -/
theorem c8_dedup_by_key :
    (∀ (cap : Nat) (cs : List Replica),
      ((uniqueTracksOf cap cs).map Track.ratingKey).Nodup) ∧
    (∀ ms : List Replica, (keysOf (collectMembership ms)).Nodup) ∧
    (∀ ms : List Replica, ∀ m ∈ ms, m.readFail = false →
      ∀ items, m.playlist = some items →
        ∀ x ∈ items, x.ratingKey ∈ keysOf (collectMembership ms)) ∧
    (∀ (f g h : String → String) (cap : Nat) (cs : List Replica),
      (uniqueTracksOf cap (cs.map (relabelReplica f g h))).map Track.ratingKey
        = (uniqueTracksOf cap cs).map Track.ratingKey) ∧
    (∀ (f g h : String → String) (ms : List Replica),
      keysOf (collectMembership (ms.map (relabelReplica f g h)))
        = keysOf (collectMembership ms)) := by
  refine ⟨?_, ?_, ?_, ?_, ?_⟩
  · intro cap cs
    exact (dedupeCapAux_nodup cap (allRatedSorted cs) []).1
  · exact collectMembership_keys_nodup
  · intro ms m hm hr items hp x hx
    exact mem_keys_collectMembership ms m hm hr items hp x hx
  · intro f g h cap cs
    exact uniqueTracksOf_relabel f g h cap cs
  · intro f g h ms
    rw [collectMembership_relabel]
    exact keysOf_map_relabel f g h _

/-- C8 witness: the membership part instantiated at a concrete state. -/
theorem c8_dedup_by_key_witness :
    c10Member ∈ [c10Member] ∧ c10Member.readFail = false ∧
    c10Member.playlist = some [libTrack 4, addedTrack 5 9] ∧
    libTrack 4 ∈ [libTrack 4, addedTrack 5 9] ∧
    (4 : Nat) ∈ keysOf (collectMembership [c10Member]) :=
  ⟨by decide, rfl, rfl, by decide,
    c8_dedup_by_key.2.2.1 [c10Member] c10Member (by decide) rfl
      [libTrack 4, addedTrack 5 9] rfl (libTrack 4) (by decide)⟩

/-- C9 (confirmed): an empty merge result is not an error.  When
collection yields nothing, each of the three sync operations returns its
zero-valued result without raising (the embedding is a total function) and
performs no playlist write: the remote state is returned unchanged. -/
theorem c9_empty_merge_noop (cap : Nat) (cs ms : List Replica)
    (cur : List String) (st : StaffState)
    (h1 : collectRaves cs = []) (h2 : collectMembership ms = [])
    (h3 : collectStaff cur st = []) :
    updateRecentRaves cap cs = ({ added := 0, total := 0, tracks := [] }, cs) ∧
    syncJamJar ms = ({ total := 0, tracks := [] }, ms) ∧
    syncStaffPicks cur st = ({ total := 0, tracks := [], usersUpdated := 0 }, st) := by
  refine ⟨?_, ?_, ?_⟩
  · simp [updateRecentRaves, h1]
  · simp [syncJamJar, h2]
  · simp [syncStaffPicks, h3]

/-- C9 witness: replicas that exist but contribute nothing. -/
theorem c9_empty_merge_noop_witness :
    collectRaves [c7NextReplica] = [] ∧
    collectMembership [c7NextReplica] = [] ∧
    collectStaff ["C"] ⟨none, false, [c7NextReplica]⟩ = [] ∧
    (updateRecentRaves 50 [c7NextReplica]
        = ({ added := 0, total := 0, tracks := [] }, [c7NextReplica]) ∧
      syncJamJar [c7NextReplica] = ({ total := 0, tracks := [] }, [c7NextReplica]) ∧
      syncStaffPicks ["C"] ⟨none, false, [c7NextReplica]⟩
        = ({ total := 0, tracks := [], usersUpdated := 0 },
            ⟨none, false, [c7NextReplica]⟩)) :=
  ⟨rfl, rfl, rfl,
    c9_empty_merge_noop 50 [c7NextReplica] [c7NextReplica] ["C"]
      ⟨none, false, [c7NextReplica]⟩ rfl rfl rfl⟩

/-- C10 (confirmed): membership collection includes items that lack an
`addedAt` timestamp (their key reaches the merge), and since an absent
timestamp sorts as `datetime.min` (the minimum of the time type, 0 in the
embedding), in the descending sorted output every untimestamped record is
placed after all records whose timestamp is not that minimum. -/
theorem c10_untimestamped_last (ms : List Replica)
    (hpos : ∀ r ∈ mergedRecords (collectMembership ms), r.addedAt ≠ some 0) :
    (∀ m ∈ ms, m.readFail = false → ∀ items, m.playlist = some items →
      ∀ x ∈ items, x.addedAt = none → x.ratingKey ∈ keysOf (collectMembership ms)) ∧
    (mergedRecords (collectMembership ms)).Pairwise
      (fun p q => p.addedAt = none → q.addedAt = none) := by
  constructor
  · intro m hm hr items hp x hx _
    exact mem_keys_collectMembership ms m hm hr items hp x hx
  · have hpw := pairwise_sortDescBy memberKey ((collectMembership ms).map Prod.snd)
    refine List.Pairwise.imp_of_mem ?_ hpw
    intro p q hpm hqm hle hnone
    cases hq : q.addedAt with
    | none => rfl
    | some t =>
      exfalso
      have hp0 : memberKey p = 0 := by simp [memberKey, hnone]
      have hqk : memberKey q = t := by simp [memberKey, hq]
      have ht0 : t = 0 := by omega
      subst ht0
      exact hpos q hqm hq

/-- C10 witness at a concrete input. -/
theorem c10_untimestamped_last_witness :
    (∀ r ∈ mergedRecords (collectMembership [c10Member]), r.addedAt ≠ some 0) ∧
    (mergedRecords (collectMembership [c10Member])).Pairwise
      (fun p q => p.addedAt = none → q.addedAt = none) :=
  ⟨by decide, (c10_untimestamped_last [c10Member] (by decide)).2⟩
